import Mathlib

/-!
A shallow embedding of `pngbomb` (src/main.rs, src/errors.rs): a streaming
PNG chunk framer with deferred length patching and a running CRC32, plus the
`ZeroReader` payload source and the `render`/`run` orchestration.

Bytes are modelled as `Nat` (values < 256 in all reachable states), the
seekable output file as a list of bytes together with a cursor, and the
`crc::crc32::Digest` accumulator as its `u32` value (a `Nat` < 2^32).
-/

namespace Pngbomb

/-! ## CRC32 (the `crc` crate, `crc32::Digest::new(crc32::IEEE)`) -/

/-- The reflected IEEE polynomial, `crc::crc32::IEEE`. -/
def CRC_IEEE : Nat := 0xedb88320

/-- 32-bit all-ones mask; `!value` on a `u32` is `value ^^^ MASK32`. -/
def MASK32 : Nat := 0xffffffff

/-- One bit-step of the CRC table construction: shift right, conditionally
xoring in the polynomial. -/
def crcBit (c : Nat) : Nat := if c % 2 = 1 then CRC_IEEE ^^^ (c / 2) else c / 2

/-- `crc::crc32::make_table` entry `i`: eight bit-steps applied to `i`. -/
def crcTable (i : Nat) : Nat := crcBit^[8] i

/-- One byte-step of `crc::crc32::update`:
`value = table[(value as u8) ^ byte] ^ (value >> 8)`. -/
def crcByte (v b : Nat) : Nat := crcTable ((v ^^^ b) &&& 0xff) ^^^ (v >>> 8)

/-- `crc::crc32::update(value, &IEEE_TABLE, bytes)`: complement in, fold the
byte-step over the bytes, complement out. `Digest::write` updates the stored
value with this function and `Digest::sum32` returns the stored value. -/
def crc_update (value : Nat) (bytes : List Nat) : Nat :=
  (bytes.foldl crcByte (value ^^^ MASK32)) ^^^ MASK32

/-- Reference CRC32 of a byte string: a fresh digest (`Digest::new` stores
value `0`) fed the whole string at once. -/
def crc32_of (bytes : List Nat) : Nat := crc_update 0 bytes

/-! ## Big-endian 32-bit encoding, `(x as u32).to_be_bytes()` -/

/-- `(n as u32).to_be_bytes()`: the `usize → u32` cast truncates modulo
`2^32`, then the four big-endian bytes are emitted. -/
def u32be (n : Nat) : List Nat :=
  [n % 2^32 / 2^24 % 256, n % 2^32 / 2^16 % 256, n % 2^32 / 2^8 % 256, n % 2^32 % 256]

/-- Decode four big-endian bytes back into the number they represent. -/
def decodeBe32 : List Nat → Nat
  | a :: b :: c :: d :: _ => a * 2^24 + b * 2^16 + c * 2^8 + d
  | _ => 0

/-! ## The seekable byte sink (the output `File`) -/

/-- A seekable byte sink: the file contents and the cursor position.
Writing at a cursor inside the file overwrites in place; writing past the
end pads with zeroes (never exercised by this program) and extends. -/
structure Sink where
  data : List Nat
  pos : Nat
deriving DecidableEq, Repr

/-- `Write::write_all` on the sink: overwrite/extend at the cursor and
advance the cursor by the number of bytes written. -/
def Sink.write (s : Sink) (bytes : List Nat) : Sink :=
  { data := s.data.take s.pos ++ List.replicate (s.pos - s.data.length) 0
      ++ bytes ++ s.data.drop (s.pos + bytes.length),
    pos := s.pos + bytes.length }

/-- `Seek::seek(SeekFrom::Start(p))`. `seek(SeekFrom::Current(0))` is
reading `s.pos`. -/
def Sink.seekTo (s : Sink) (p : Nat) : Sink := { s with pos := p }

/-! ## Errors (src/errors.rs: `error_chain!` with `IO` and `Docopt`
foreign links; `bail!` produces a message variant) -/

/-- The `errors::Error` kinds this program can produce: an I/O error, a
docopt argument-parsing error, or the `bail!("wrote {} bytes, but expected
{}")` length-mismatch message from `ChunkWriter::finish`. -/
inductive Error where
  | io : Error
  | docopt : Error
  | lengthMismatch (wrote expected : Nat) : Error
deriving DecidableEq, Repr

/-! ## ChunkWriter -/

/-- `ChunkWriter<W>`: the sink, the declared length mode (`Some n` known,
`none` deferred), the running CRC digest value, and the cursor recorded at
`begin`. -/
structure ChunkWriter where
  w : Sink
  len : Option Nat
  crc : Nat
  start : Nat
deriving DecidableEq, Repr

/-- `ChunkWriter::begin`: record the cursor, write the 4-byte big-endian
length (the declared value, or `0` as a placeholder), write the 4-byte type
tag, and seed the digest with the type tag (the length field is not
hashed). The in-memory sink model cannot fail, so no error case arises. -/
def ChunkWriter.begin (w : Sink) (typ : List Nat) (len : Option Nat) : ChunkWriter :=
  let start := w.pos
  let w := w.write (u32be (len.getD 0))
  let w := w.write typ
  { w := w, len := len, crc := crc_update 0 typ, start := start }

/-- `<ChunkWriter as Write>::write`: forward the bytes to the sink and fold
them into the digest; return the byte count accepted (the in-memory sink
always accepts the whole buffer; see `GChunkWriter` below for the
short-write-capable model). -/
def ChunkWriter.write (cw : ChunkWriter) (data : List Nat) : Nat × ChunkWriter :=
  (data.length, { cw with w := cw.w.write data, crc := crc_update cw.crc data })

/-- `write_all` on a `ChunkWriter` (no short writes in this sink model). -/
def ChunkWriter.writeAll (cw : ChunkWriter) (data : List Nat) : ChunkWriter :=
  (cw.write data).2

/-- A sequence of `write_all` calls. -/
def ChunkWriter.writes (cw : ChunkWriter) (ps : List (List Nat)) : ChunkWriter :=
  ps.foldl ChunkWriter.writeAll cw

/-- `ChunkWriter::finish`: read the cursor, derive the payload length from
cursor arithmetic (`cur - start - 4 - 4`); in known mode `bail!` on a
mismatch (the error carries the sink as it stands at failure, i.e. the file
contents when `finish` returns `Err` — nothing further is written); in
deferred mode seek back, patch the length field, seek forward; finally
append the 4-byte big-endian CRC and yield the sink. -/
def ChunkWriter.finish (cw : ChunkWriter) : Except (Error × Sink) Sink :=
  let cur := cw.w.pos
  let len := cur - cw.start - 4 - 4
  match cw.len with
  | some hlen =>
    if len ≠ hlen then .error (.lengthMismatch len hlen, cw.w)
    else .ok ((cw.w.write (u32be cw.crc)))
  | none =>
    let w := cw.w.seekTo cw.start
    let w := w.write (u32be len)
    let w := w.seekTo cur
    .ok (w.write (u32be cw.crc))

/-- `write_chunk`: begin a known-length chunk, write the whole payload,
finish. -/
def write_chunk (w : Sink) (typ : List Nat) (data : List Nat) : Except (Error × Sink) Sink :=
  ((ChunkWriter.begin w typ (some data.length)).writeAll data).finish

/-! ## ZeroReader -/

/-- `ZeroReader`: a `Read` implementation yielding `count` zero bytes in
total; `at_` is the `at` field (how many have been yielded so far). -/
structure ZeroReader where
  count : Nat
  at_ : Nat
deriving DecidableEq, Repr

/-- `ZeroReader::new`. -/
def ZeroReader.new (count : Nat) : ZeroReader := ⟨count, 0⟩

/-- The loop body of `<ZeroReader as Read>::read`: walk the buffer cells,
stopping when `at == count`; returns `num`, the number of cells filled. -/
def zeroReadNum (count at_ bufLen : Nat) : Nat :=
  match bufLen with
  | 0 => 0
  | n + 1 => if at_ = count then 0 else zeroReadNum count (at_ + 1) n + 1

/-- `<ZeroReader as Read>::read` on a buffer of length `bufLen`: the bytes
placed into the buffer (all zero) and the updated reader. -/
def ZeroReader.read (r : ZeroReader) (bufLen : Nat) : List Nat × ZeroReader :=
  let num := zeroReadNum r.count r.at_ bufLen
  (List.replicate num 0, ⟨r.count, r.at_ + num⟩)

/-- A sequence of `read` calls with the given buffer lengths, collecting
each call's bytes. -/
def ZeroReader.readMany (r : ZeroReader) (bufLens : List Nat) : List (List Nat) × ZeroReader :=
  match bufLens with
  | [] => ([], r)
  | n :: ns =>
    let (bs, r') := r.read n
    let (rest, r'') := r'.readMany ns
    (bs :: rest, r'')

/-! ## render -/

/-- The fixed 8-byte PNG signature written first by `render`. -/
def pngSignature : List Nat := [137, 80, 78, 71, 13, 10, 26, 10]

/-- `png::chunk::IHDR` = `b"IHDR"`. -/
def typIHDR : List Nat := [73, 72, 68, 82]

/-- `png::chunk::IDAT` = `b"IDAT"`. -/
def typIDAT : List Nat := [73, 68, 65, 84]

/-- `png::chunk::IEND` = `b"IEND"`. -/
def typIEND : List Nat := [73, 69, 78, 68]

/-- Modelled from the spec: the `png` crate's `Info::raw_row_length` for a
grayscale (one sample per pixel) image — "a capability returning bytes per
packed row given width/bit-depth/channel-count": one filter-method byte
plus the packed row bytes, `ceil(width * bit_depth / 8)` (the standard
packed-row formula; exact for bit depths 1, 2, 4, 8 and 16 at one sample
per pixel). The crate itself is not part of this repository's sources. -/
def raw_row_length (width bitDepth : Nat) : Nat := 1 + (width * bitDepth + 7) / 8

/-- The 13-byte IHDR payload assembled by `render`: big-endian `width as
u32`, big-endian `height as u32`, `bit_depth as u8`, `color_type as u8`,
then the three fixed zero bytes (compression, filter, interlace). -/
def ihdrPayload (width height bitDepth colorType : Nat) : List Nat :=
  u32be width ++ u32be height ++ [bitDepth % 256, colorType % 256, 0, 0, 0]

/-- `render`: write the signature; write the IHDR chunk with known length;
stream `raw_row_length * height` zero bytes through the zlib compressor
into a deferred-length IDAT chunk; write the empty IEND chunk.

The compressor (`flate2::bufread::ZlibEncoder`, an external collaborator
specified at its boundary) is a parameter `compress`; the source's read
loop transfers the whole compressed stream into the chunk in blocks of at
most 2 MiB, which reaches the sink as the same byte sequence as a single
`write_all` (write-splitting invariance is proved below), so the loop is
modelled as one `write_all` of the full compressed stream. -/
def render (out : Sink) (width height : Nat) (bitDepth colorType : Nat)
    (compress : List Nat → List Nat) : Except (Error × Sink) Sink :=
  let out := out.write pngSignature
  let hdr := ihdrPayload width height bitDepth colorType
  match write_chunk out typIHDR hdr with
  | .error e => .error e
  | .ok out =>
    let ibytes := raw_row_length width bitDepth * height
    let zpayload := compress (List.replicate ibytes 0)
    match ((ChunkWriter.begin out typIDAT none).writeAll zpayload).finish with
    | .error e => .error e
    | .ok out => write_chunk out typIEND []

/-! ## run -/

/-- The docopt-deserialized command-line arguments (`struct Args`). -/
structure Args where
  arg_outfile : String
  flag_width : Nat
  flag_height : Nat

/-- `run`: deserialize the arguments (docopt is an external collaborator,
so `parsed` is the outcome of `Docopt::new(USAGE)?.deserialize()?`); only
on success create the output file (a fresh empty sink) and render into it
with grayscale color type (0) and bit depth 1. The `Option Sink` in the
error carries the file state at failure: `none` means the file was never
created. -/
def run (parsed : Except Unit Args) (compress : List Nat → List Nat) :
    Except (Error × Option Sink) Sink :=
  match parsed with
  | .error _ => .error (.docopt, none)
  | .ok args =>
    match render ⟨[], 0⟩ args.flag_width args.flag_height 1 0 compress with
    | .error (e, s) => .error (e, some s)
    | .ok s => .ok s

/-! ## Chunk re-parsing (the independent reader used to state round-trips) -/

/-- Re-parse one chunk laid out as
`[4-byte big-endian length][4-byte type][payload][4-byte checksum]`,
requiring the input to be exactly one whole chunk; returns
`(type, payload, checksum field)`. -/
def parseChunk (bs : List Nat) : Option (List Nat × List Nat × List Nat) :=
  let n := decodeBe32 (bs.take 4)
  if bs.length = 12 + n then
    some ((bs.drop 4).take 4, (bs.drop 8).take n, (bs.drop (8 + n)).take 4)
  else none

/-! ## The short-write-capable sink and writer (for the `Write` impl as a
trait method, where the inner `write` may accept only a prefix) -/

/-- A sink whose successive `write` calls accept at most `caps.head`,
`caps.tail.head`, ... bytes (an empty `caps` list accepts everything):
models an arbitrary inner `io::Write` that may perform short writes. -/
structure GSink where
  data : List Nat
  pos : Nat
  caps : List Nat
deriving DecidableEq, Repr

/-- The number of bytes the next `write` of `bytes` will accept. -/
def GSink.accepts (s : GSink) (bytes : List Nat) : Nat :=
  match s.caps with
  | [] => bytes.length
  | c :: _ => min c bytes.length

/-- `io::Write::write` on the generalized sink: accept a prefix, advance
the cursor by the accepted count only. -/
def GSink.write (s : GSink) (bytes : List Nat) : Nat × GSink :=
  let n := s.accepts bytes
  (n, { data := s.data.take s.pos ++ List.replicate (s.pos - s.data.length) 0
          ++ bytes.take n ++ s.data.drop (s.pos + n),
        pos := s.pos + n,
        caps := s.caps.tail })

/-- `ChunkWriter` over the short-write-capable sink. -/
structure GChunkWriter where
  w : GSink
  len : Option Nat
  crc : Nat
  start : Nat
deriving DecidableEq, Repr

/-- `<ChunkWriter as Write>::write`, verbatim from the source: forward
`data` to the inner sink, which accepts `num ≤ data.len()` bytes — then
fold the ENTIRE buffer `data` into the digest and return `num`. -/
def GChunkWriter.write (cw : GChunkWriter) (data : List Nat) : Nat × GChunkWriter :=
  let (num, w) := cw.w.write data
  (num, { cw with w := w, crc := crc_update cw.crc data })

/-- `ChunkWriter::begin` over the generalized sink; `begin` uses
`write_all`, which loops until the 8 header bytes are accepted, so the
header is modelled as written in full (on a fresh sink with no caps
consumed yet this matches the loop's net effect). -/
def GChunkWriter.begin (w : GSink) (typ : List Nat) (len : Option Nat) : GChunkWriter :=
  let start := w.pos
  let hdr := u32be (len.getD 0) ++ typ
  let d := w.data.take w.pos ++ List.replicate (w.pos - w.data.length) 0
      ++ hdr ++ w.data.drop (w.pos + hdr.length)
  { w := { data := d, pos := w.pos + hdr.length, caps := w.caps },
    len := len, crc := crc_update 0 typ, start := start }

/-- `GChunkWriter` fold of `write` calls (each may be short). -/
def GChunkWriter.writes (cw : GChunkWriter) (ps : List (List Nat)) : GChunkWriter :=
  ps.foldl (fun c p => (c.write p).2) cw

/-! # Helper lemmas -/

/-- Digest updates compose: feeding `a ++ b` is feeding `a` then `b`
(the complement-in/complement-out of `update` cancels between calls). -/
theorem crc_update_append (v : Nat) (a b : List Nat) :
    crc_update v (a ++ b) = crc_update (crc_update v a) b := by
  simp only [crc_update, List.foldl_append, Nat.xor_cancel_right]

@[simp] theorem crc_update_nil (v : Nat) : crc_update v [] = v := by
  simp [crc_update, Nat.xor_cancel_right]

@[simp] theorem u32be_length (n : Nat) : (u32be n).length = 4 := rfl

/-- Decoding the four emitted big-endian bytes recovers the value modulo
`2^32`: the `usize → u32` cast semantics. -/
theorem decodeBe32_u32be (n : Nat) : decodeBe32 (u32be n) = n % 2^32 := by
  simp only [u32be, decodeBe32]
  omega

/-- Writing with the cursor at end-of-file appends. -/
theorem Sink.write_app (s : Sink) (bs : List Nat) (h : s.pos = s.data.length) :
    s.write bs = ⟨s.data ++ bs, s.data.length + bs.length⟩ := by
  simp [Sink.write, h, List.drop_eq_nil_of_le]

/-- `begin` at end-of-file: the header is appended, the start cursor is the
old end, the digest holds the type tag. -/
theorem begin_spec (w0 : Sink) (typ : List Nat) (len : Option Nat)
    (h : w0.pos = w0.data.length) :
    ChunkWriter.begin w0 typ len =
      { w := ⟨w0.data ++ u32be (len.getD 0) ++ typ, w0.pos + 4 + typ.length⟩,
        len := len, crc := crc_update 0 typ, start := w0.pos } := by
  simp only [ChunkWriter.begin]
  rw [Sink.write_app _ _ h]
  rw [Sink.write_app _ _ (by simp)]
  simp [h, List.append_assoc, Nat.add_assoc]

/-- Folding `write_all` calls over a writer whose cursor is at end-of-file:
the payloads are appended in order and folded into the digest in order. -/
theorem writes_spec (cw : ChunkWriter) (ps : List (List Nat))
    (h : cw.w.pos = cw.w.data.length) :
    ChunkWriter.writes cw ps =
      { cw with w := ⟨cw.w.data ++ ps.flatten, cw.w.pos + ps.flatten.length⟩,
                crc := crc_update cw.crc ps.flatten } := by
  induction ps generalizing cw with
  | nil =>
    obtain ⟨⟨d, p⟩, l, c, st⟩ := cw
    simp_all [ChunkWriter.writes]
  | cons p ps ih =>
    have hw : (cw.writeAll p).w.pos = (cw.writeAll p).w.data.length := by
      simp [ChunkWriter.writeAll, ChunkWriter.write, Sink.write_app _ _ h]
    have := ih (cw.writeAll p) hw
    simp only [ChunkWriter.writes, List.foldl_cons] at this ⊢
    rw [this]
    simp [ChunkWriter.writeAll, ChunkWriter.write, Sink.write_app _ _ h,
      crc_update_append, List.append_assoc, h]
    omega

/-- The combined `begin`-then-writes state, for a 4-byte type tag. -/
theorem begin_writes_spec (w0 : Sink) (typ : List Nat) (len : Option Nat)
    (ps : List (List Nat)) (h : w0.pos = w0.data.length) (htyp : typ.length = 4) :
    ChunkWriter.writes (ChunkWriter.begin w0 typ len) ps =
      { w := ⟨w0.data ++ u32be (len.getD 0) ++ typ ++ ps.flatten,
              w0.pos + 8 + ps.flatten.length⟩,
        len := len, crc := crc_update 0 (typ ++ ps.flatten), start := w0.pos } := by
  rw [begin_spec w0 typ len h, writes_spec _ _ (by simp [h]; omega)]
  simp only [ChunkWriter.mk.injEq, Sink.mk.injEq, ← crc_update_append, List.append_assoc]
  refine ⟨⟨trivial, by omega⟩, trivial, trivial, trivial⟩

/-- Seeking back over a 4-byte field and writing 4 bytes overwrites exactly
that field in place. -/
theorem write_patch (d0 p rest q : List Nat) (hp : p.length = 4) (hq : q.length = 4) :
    Sink.write ⟨d0 ++ p ++ rest, d0.length⟩ q = ⟨d0 ++ q ++ rest, d0.length + 4⟩ := by
  have hp4 : List.drop 4 (p ++ rest) = rest := by
    rw [← hp]; exact List.drop_left p rest
  have h0 : d0.length - (d0 ++ p ++ rest).length = 0 := by
    simp only [List.length_append]; omega
  simp [Sink.write, h0, hq, hp4]

/-- `finish` on a deferred-length chunk in the canonical post-`writes`
state: the placeholder is patched to the payload length (as `u32`), the
checksum is appended, the cursor ends 4 past where it stood. -/
theorem finish_none_spec (d0 typ J : List Nat) (c : Nat) (htyp : typ.length = 4) :
    ChunkWriter.finish
        { w := ⟨d0 ++ u32be 0 ++ typ ++ J, d0.length + 8 + J.length⟩,
          len := none, crc := c, start := d0.length } =
      .ok ⟨d0 ++ u32be J.length ++ typ ++ J ++ u32be c, d0.length + 12 + J.length⟩ := by
  have hlen : d0.length + 8 + J.length - d0.length - 4 - 4 = J.length := by omega
  unfold ChunkWriter.finish
  dsimp only [Sink.seekTo]
  rw [hlen]
  rw [show d0 ++ u32be 0 ++ typ ++ J = d0 ++ u32be 0 ++ (typ ++ J) from by simp,
    write_patch d0 (u32be 0) (typ ++ J) (u32be J.length) (by simp) (by simp)]
  rw [Sink.write_app _ _ (by simp [htyp]; omega)]
  simp only [Except.ok.injEq, Sink.mk.injEq]
  constructor
  · simp
  · simp [htyp]; omega

/-- `finish` on a known-length chunk in the canonical post-`writes` state:
on a byte-count mismatch it fails with the length-mismatch error, leaving
the sink exactly as it stood (no checksum written); on a match it appends
the checksum. -/
theorem finish_some_spec (d0 typ J : List Nat) (n c : Nat) (htyp : typ.length = 4) :
    ChunkWriter.finish
        { w := ⟨d0 ++ u32be n ++ typ ++ J, d0.length + 8 + J.length⟩,
          len := some n, crc := c, start := d0.length } =
      if J.length = n then
        .ok ⟨d0 ++ u32be n ++ typ ++ J ++ u32be c, d0.length + 12 + J.length⟩
      else
        .error (.lengthMismatch J.length n,
          ⟨d0 ++ u32be n ++ typ ++ J, d0.length + 8 + J.length⟩) := by
  have hlen : d0.length + 8 + J.length - d0.length - 4 - 4 = J.length := by omega
  unfold ChunkWriter.finish
  dsimp only
  rw [hlen]
  by_cases hJ : J.length = n
  · rw [Sink.write_app _ _ (by simp [htyp]; omega)]
    simp only [hJ, ne_eq, not_true_eq_false, if_neg, if_pos, ite_false, ite_true]
    simp only [Except.ok.injEq, Sink.mk.injEq]
    constructor
    · simp
    · simp [htyp]; omega
  · simp [hJ]

/-- The `read` loop fills `min(buffer size, count - at)` cells when the
reader is in a consistent state (`at ≤ count`). -/
theorem zeroReadNum_eq_min (count at_ bufLen : Nat) (h : at_ ≤ count) :
    zeroReadNum count at_ bufLen = min bufLen (count - at_) := by
  induction bufLen generalizing at_ with
  | zero => simp [zeroReadNum]
  | succ n ih =>
    unfold zeroReadNum
    by_cases hac : at_ = count
    · simp [hac]
    · rw [if_neg hac, ih (at_ + 1) (by omega)]
      omega

/-- Any sequence of `read` calls on a consistent `ZeroReader` yields
`min N (a + total requested) - a` zero bytes in total and leaves the reader
at that mark. -/
theorem readMany_spec (N : Nat) (bs : List Nat) (a : Nat) (ha : a ≤ N) :
    (ZeroReader.readMany ⟨N, a⟩ bs).1.flatten
        = List.replicate (min N (a + bs.sum) - a) 0
    ∧ (ZeroReader.readMany ⟨N, a⟩ bs).2 = ⟨N, min N (a + bs.sum)⟩ := by
  induction bs generalizing a with
  | nil =>
    constructor
    · simp [ZeroReader.readMany]
    · simp only [ZeroReader.readMany, List.sum_nil, Nat.add_zero, ZeroReader.mk.injEq,
        true_and]
      omega
  | cons n ns ih =>
    have hnum := zeroReadNum_eq_min N a n ha
    have ih' := ih (a + zeroReadNum N a n) (by omega)
    simp only [ZeroReader.readMany, ZeroReader.read, List.flatten_cons, List.sum_cons]
    rw [ih'.1, ih'.2]
    constructor
    · rw [← List.replicate_add]
      congr 1
      omega
    · simp only [ZeroReader.mk.injEq, true_and]
      omega

/-- The last four bytes of a sink whose data ends in a 4-byte field. -/
theorem drop_last4 (xs q : List Nat) (hq : q.length = 4) :
    (xs ++ q).drop ((xs ++ q).length - 4) = q := by
  rw [List.length_append, hq]
  exact List.drop_left' (by omega)

/-- Canonical success form of a deferred-chunk lifecycle (shared helper). -/
theorem deferred_finish_ok (w0 : Sink) (typ : List Nat) (ps : List (List Nat))
    (h : w0.pos = w0.data.length) (htyp : typ.length = 4) :
    (ChunkWriter.writes (ChunkWriter.begin w0 typ none) ps).finish
      = .ok ⟨w0.data ++ u32be ps.flatten.length ++ typ ++ ps.flatten
          ++ u32be (crc32_of (typ ++ ps.flatten)),
          w0.data.length + 12 + ps.flatten.length⟩ := by
  rw [begin_writes_spec w0 typ none ps h htyp]
  simp only [Option.getD_none]
  rw [h]
  rw [finish_none_spec w0.data typ ps.flatten (crc_update 0 (typ ++ ps.flatten)) htyp]
  rfl

/-- Canonical success form of a known-length chunk whose declared length is
the total of the written pieces (shared helper). -/
theorem known_finish_ok (w0 : Sink) (typ : List Nat) (ps : List (List Nat))
    (h : w0.pos = w0.data.length) (htyp : typ.length = 4) :
    (ChunkWriter.writes (ChunkWriter.begin w0 typ (some ps.flatten.length)) ps).finish
      = .ok ⟨w0.data ++ u32be ps.flatten.length ++ typ ++ ps.flatten
          ++ u32be (crc32_of (typ ++ ps.flatten)),
          w0.data.length + 12 + ps.flatten.length⟩ := by
  rw [begin_writes_spec w0 typ (some ps.flatten.length) ps h htyp]
  simp only [Option.getD_some]
  rw [h]
  rw [finish_some_spec w0.data typ ps.flatten ps.flatten.length
    (crc_update 0 (typ ++ ps.flatten)) htyp]
  rw [if_pos rfl]
  rfl

/-- First four bytes of a buffer headed by a 4-byte field. -/
theorem take4_pre (p ys : List Nat) (hp : p.length = 4) : (p ++ ys).take 4 = p := by
  rw [← hp]
  exact List.take_left p ys

/-- Dropping a leading 4-byte field. -/
theorem drop4_pre (p ys : List Nat) (hp : p.length = 4) : (p ++ ys).drop 4 = ys := by
  rw [← hp]
  exact List.drop_left p ys

/-- Dropping two leading 4-byte fields. -/
theorem drop_pre2 (p q ys : List Nat) (hp : p.length = 4) (hq : q.length = 4) :
    (p ++ (q ++ ys)).drop 8 = ys := by
  rw [← List.append_assoc]
  exact List.drop_left' (by simp [hp, hq])

/-- The deferred chunk fed a single `n`-byte all-zero payload: `finish`
succeeds and the field holds the `u32`-truncated length (shared helper;
stated for arbitrary `n` so it can be used at `n = 2^32` without ever
materializing the list). -/
theorem deferred_replicate_ok (n : Nat) :
    (ChunkWriter.writes (ChunkWriter.begin ⟨[], 0⟩ typIDAT none)
        [List.replicate n 0]).finish
      = .ok ⟨u32be n ++ typIDAT ++ List.replicate n 0
          ++ u32be (crc32_of (typIDAT ++ List.replicate n 0)), 12 + n⟩ := by
  have h := deferred_finish_ok ⟨[], 0⟩ typIDAT [List.replicate n 0] rfl rfl
  rw [h]
  simp only [List.flatten_cons, List.flatten_nil, List.append_nil, List.length_replicate,
    List.nil_append]
  rfl

/-- `write_chunk` success layout for any payload (shared helper; no bound
on the payload length — the length field is the `u32`-truncated count). -/
theorem write_chunk_layout (w0 : Sink) (typ data : List Nat)
    (h : w0.pos = w0.data.length) (htyp : typ.length = 4) :
    write_chunk w0 typ data
      = .ok ⟨w0.data ++ u32be data.length ++ typ ++ data
          ++ u32be (crc32_of (typ ++ data)), w0.data.length + 12 + data.length⟩ := by
  have h1 := known_finish_ok w0 typ [data] h htyp
  simp only [List.flatten_cons, List.flatten_nil, List.append_nil] at h1
  exact h1

/-- Deferred-chunk lifecycle with the payload supplied by one `write_all`
(shared helper). -/
theorem deferred_single_ok (w0 : Sink) (typ J : List Nat)
    (h : w0.pos = w0.data.length) (htyp : typ.length = 4) :
    ((ChunkWriter.begin w0 typ none).writeAll J).finish
      = .ok ⟨w0.data ++ u32be J.length ++ typ ++ J ++ u32be (crc32_of (typ ++ J)),
          w0.data.length + 12 + J.length⟩ := by
  have h1 := deferred_finish_ok w0 typ [J] h htyp
  simp only [List.flatten_cons, List.flatten_nil, List.append_nil] at h1
  exact h1

/-! # Claims -/

/-- C1: for every chunk begun in Deferred mode (`length_mode = None`),
after any sequence of write calls, `finish` computes the true payload
length as (end cursor − start cursor − 8), seeks back to the length-field
position recorded at `begin`, overwrites the 4-byte big-endian placeholder
with that length (encoded as the `u32` cast writes it), seeks forward to
the position held just before the rewrite, and then writes the 4-byte
big-endian checksum as the final step — so the final sink holds the
patched length field in place, the cursor ends 4 bytes past where it stood
before the rewrite, and the checksum is the last thing written. -/
theorem deferred_finish_patches_length (w0 : Sink) (typ : List Nat)
    (ps : List (List Nat)) (h : w0.pos = w0.data.length) (htyp : typ.length = 4) :
    (ChunkWriter.writes (ChunkWriter.begin w0 typ none) ps).w.pos
        - (ChunkWriter.writes (ChunkWriter.begin w0 typ none) ps).start - 4 - 4
      = ps.flatten.length
    ∧ (ChunkWriter.writes (ChunkWriter.begin w0 typ none) ps).finish
      = .ok ⟨w0.data ++ u32be ps.flatten.length ++ typ ++ ps.flatten
              ++ u32be (crc32_of (typ ++ ps.flatten)),
            (ChunkWriter.writes (ChunkWriter.begin w0 typ none) ps).w.pos + 4⟩ := by
  rw [begin_writes_spec w0 typ none ps h htyp]
  simp only [Option.getD_none]
  rw [h]
  constructor
  · omega
  · rw [finish_none_spec w0.data typ ps.flatten (crc_update 0 (typ ++ ps.flatten)) htyp]
    simp only [Except.ok.injEq, Sink.mk.injEq, crc32_of]
    exact ⟨trivial, by omega⟩

/-- Witness for C1 at a concrete deferred chunk with two write calls. -/
theorem deferred_finish_patches_length_witness :
    (ChunkWriter.writes (ChunkWriter.begin ⟨[], 0⟩ typIDAT none) [[1, 2], [3]]).finish
      = .ok ⟨[0, 0, 0, 3] ++ typIDAT ++ [1, 2, 3]
          ++ u32be (crc32_of (typIDAT ++ [1, 2, 3])), 15⟩ := by
  have h := (deferred_finish_patches_length ⟨[], 0⟩ typIDAT [[1, 2], [3]] rfl rfl).2
  exact h.trans (by rfl)

/-- C2: for every chunk begun in `Known(n)` mode, if the number of payload
bytes written before `finish` is not exactly `n`, `finish` fails with the
length-mismatch error (a variant distinct from the I/O error) and leaves
the sink exactly as it stood — length field, type and payload only, no
checksum; if exactly `n` bytes were written, `finish` succeeds and appends
the checksum. -/
theorem known_finish_length_mismatch (w0 : Sink) (typ : List Nat) (n : Nat)
    (ps : List (List Nat)) (h : w0.pos = w0.data.length) (htyp : typ.length = 4) :
    (ps.flatten.length ≠ n →
      (ChunkWriter.writes (ChunkWriter.begin w0 typ (some n)) ps).finish
        = .error (.lengthMismatch ps.flatten.length n,
            ⟨w0.data ++ u32be n ++ typ ++ ps.flatten, w0.pos + 8 + ps.flatten.length⟩)
      ∧ Error.lengthMismatch ps.flatten.length n ≠ Error.io)
    ∧ (ps.flatten.length = n →
      (ChunkWriter.writes (ChunkWriter.begin w0 typ (some n)) ps).finish
        = .ok ⟨w0.data ++ u32be n ++ typ ++ ps.flatten
            ++ u32be (crc32_of (typ ++ ps.flatten)), w0.pos + 12 + ps.flatten.length⟩) := by
  rw [begin_writes_spec w0 typ (some n) ps h htyp]
  simp only [Option.getD_some]
  rw [h]
  rw [finish_some_spec w0.data typ ps.flatten n (crc_update 0 (typ ++ ps.flatten)) htyp]
  constructor
  · intro hne
    rw [if_neg hne]
    exact ⟨rfl, by simp⟩
  · intro he
    rw [if_pos he]
    rfl

/-- Witness for C2: a `Known(10)` chunk given 9 bytes fails with the
length-mismatch error and no checksum; given 10 bytes it succeeds. -/
theorem known_finish_length_mismatch_witness :
    ((ChunkWriter.writes (ChunkWriter.begin ⟨[], 0⟩ typIDAT (some 10))
        [List.replicate 9 0]).finish
      = .error (.lengthMismatch 9 10,
          ⟨[0, 0, 0, 10] ++ typIDAT ++ List.replicate 9 0, 17⟩))
    ∧ ((ChunkWriter.writes (ChunkWriter.begin ⟨[], 0⟩ typIDAT (some 10))
        [List.replicate 10 0]).finish
      = .ok ⟨[0, 0, 0, 10] ++ typIDAT ++ List.replicate 10 0
          ++ u32be (crc32_of (typIDAT ++ List.replicate 10 0)), 22⟩) := by
  constructor
  · have h := ((known_finish_length_mismatch ⟨[], 0⟩ typIDAT 10
      [List.replicate 9 0] rfl rfl).1 (by decide)).1
    exact h.trans (by rfl)
  · have h := (known_finish_length_mismatch ⟨[], 0⟩ typIDAT 10
      [List.replicate 10 0] rfl rfl).2 (by decide)
    exact h.trans (by rfl)

/-- C3: the checksum accumulator is folded over exactly the 4-byte
chunk-type identifier followed by the payload bytes, never over the length
field — in any length mode; consequently two chunks with identical type and
payload, one opened in Known mode and one in Deferred mode, carry identical
4-byte checksum fields (the last four bytes of each finished chunk), both
equal to the reference CRC32 of type ++ payload. -/
theorem checksum_covers_type_and_payload_only (w0 w1 : Sink) (typ : List Nat)
    (ps : List (List Nat)) (lenMode : Option Nat)
    (h0 : w0.pos = w0.data.length) (h1 : w1.pos = w1.data.length)
    (htyp : typ.length = 4) :
    (ChunkWriter.writes (ChunkWriter.begin w0 typ lenMode) ps).crc
        = crc32_of (typ ++ ps.flatten)
    ∧ ∃ s1 s2,
      (ChunkWriter.writes (ChunkWriter.begin w0 typ (some ps.flatten.length)) ps).finish
          = .ok s1
      ∧ (ChunkWriter.writes (ChunkWriter.begin w1 typ none) ps).finish = .ok s2
      ∧ s1.data.drop (s1.data.length - 4) = u32be (crc32_of (typ ++ ps.flatten))
      ∧ s2.data.drop (s2.data.length - 4) = u32be (crc32_of (typ ++ ps.flatten))
      ∧ s1.data.drop (s1.data.length - 4) = s2.data.drop (s2.data.length - 4) := by
  have hknown := known_finish_ok w0 typ ps h0 htyp
  have hdef := deferred_finish_ok w1 typ ps h1 htyp
  refine ⟨?_, ?_⟩
  · rw [begin_writes_spec w0 typ lenMode ps h0 htyp]
    rfl
  · refine ⟨_, _, hknown, hdef, ?_, ?_, ?_⟩
    · exact drop_last4 _ _ (by simp)
    · exact drop_last4 _ _ (by simp)
    · rw [drop_last4 _ _ (by simp), drop_last4 _ _ (by simp)]

/-- Witness for C3 at a concrete chunk: the digest over a known-length
chunk's lifecycle equals the reference CRC32 of type ++ payload. -/
theorem checksum_covers_type_and_payload_only_witness :
    (ChunkWriter.writes (ChunkWriter.begin ⟨[], 0⟩ typIDAT (some 3)) [[5], [6, 7]]).crc
      = crc32_of (typIDAT ++ [5, 6, 7]) := by
  have h := (checksum_covers_type_and_payload_only ⟨[], 0⟩ ⟨[], 0⟩ typIDAT [[5], [6, 7]]
    (some 3) rfl rfl rfl).1
  exact h.trans (by rfl)

/-- C5 (amended): for every Deferred-mode chunk and payload, the emitted
bytes and patched length field are identical whether the payload arrives in
one write call or split across many; the patched field holds the payload
byte count as a `u32`, which equals the exact count whenever the payload is
shorter than `2^32` bytes (for `2^32` bytes or more it silently wraps — see
the counterexample). -/
theorem deferred_write_split_invariance (w0 : Sink) (typ : List Nat)
    (ps : List (List Nat)) (h : w0.pos = w0.data.length) (htyp : typ.length = 4) :
    (ChunkWriter.writes (ChunkWriter.begin w0 typ none) ps).finish
      = (ChunkWriter.writes (ChunkWriter.begin w0 typ none) [ps.flatten]).finish
    ∧ (ChunkWriter.writes (ChunkWriter.begin w0 typ none) ps).finish
      = .ok ⟨w0.data ++ u32be ps.flatten.length ++ typ ++ ps.flatten
          ++ u32be (crc32_of (typ ++ ps.flatten)),
          w0.data.length + 12 + ps.flatten.length⟩
    ∧ (ps.flatten.length < 2^32 →
        decodeBe32 (u32be ps.flatten.length) = ps.flatten.length) := by
  have h1 := deferred_finish_ok w0 typ ps h htyp
  have h2 := deferred_finish_ok w0 typ [ps.flatten] h htyp
  refine ⟨?_, h1, ?_⟩
  · rw [h1, h2]
    simp
  · intro hlt
    rw [decodeBe32_u32be]
    exact Nat.mod_eq_of_lt hlt

/-- Counterexample to C5 as stated: a single write of `2^32` zero bytes
finishes without error, but the patched length field decodes to `0`, not to
the exact number of payload bytes written. -/
theorem deferred_write_split_invariance_cex :
    ((ChunkWriter.writes (ChunkWriter.begin ⟨[], 0⟩ typIDAT none)
        [List.replicate (2^32) 0]).finish.toOption.map
      (fun s => decodeBe32 (s.data.take 4))) = some 0
    ∧ (List.replicate (2^32) (0 : Nat)).length ≠ 0 := by
  constructor
  · rw [deferred_replicate_ok (2^32)]
    simp only [Except.toOption, Option.map, List.append_assoc]
    rw [take4_pre _ _ (u32be_length (2^32))]
    rfl
  · rw [List.length_replicate]
    decide

/-- Witness for C5: one write call versus two write calls of the same
3-byte payload produce the same finished sink. -/
theorem deferred_write_split_invariance_witness :
    (ChunkWriter.writes (ChunkWriter.begin ⟨[], 0⟩ typIDAT none) [[1], [2, 3]]).finish
      = (ChunkWriter.writes (ChunkWriter.begin ⟨[], 0⟩ typIDAT none) [[1, 2, 3]]).finish := by
  have h := (deferred_write_split_invariance ⟨[], 0⟩ typIDAT [[1], [2, 3]] rfl rfl).1
  exact h.trans (by rfl)

/-- C4 (amended): for every 4-byte type tag and every payload shorter than
`2^32` bytes, `write_chunk` emits exactly
`[4-byte big-endian payload length][4-byte type][payload][4-byte big-endian
CRC32 over type ++ payload]`, and re-parsing length, type, payload and
checksum from the produced bytes reproduces the exact payload and a
checksum equal to the reference CRC32 of type ++ payload. (For payloads of
`2^32` bytes or more the emitted length field wraps and re-parsing no
longer reproduces the payload — see the counterexample.) -/
theorem write_chunk_roundtrip (w0 : Sink) (typ data : List Nat)
    (h : w0.pos = w0.data.length) (htyp : typ.length = 4)
    (hlen : data.length < 2^32) :
    write_chunk w0 typ data
      = .ok ⟨w0.data ++ u32be data.length ++ typ ++ data
          ++ u32be (crc32_of (typ ++ data)), w0.data.length + 12 + data.length⟩
    ∧ parseChunk (u32be data.length ++ typ ++ data ++ u32be (crc32_of (typ ++ data)))
      = some (typ, data, u32be (crc32_of (typ ++ data))) := by
  constructor
  · exact write_chunk_layout w0 typ data h htyp
  · have hLen : (u32be data.length ++ (typ ++ (data
        ++ u32be (crc32_of (typ ++ data))))).length = 12 + data.length := by
      simp only [List.length_append, u32be_length, htyp]
      omega
    have hdropc : (u32be data.length ++ (typ ++ (data
        ++ u32be (crc32_of (typ ++ data))))).drop (8 + data.length)
          = u32be (crc32_of (typ ++ data)) := by
      rw [← List.append_assoc, ← List.append_assoc]
      exact List.drop_left' (by simp only [List.length_append, u32be_length, htyp]; try omega)
    unfold parseChunk
    simp only [List.append_assoc]
    rw [take4_pre _ _ (u32be_length data.length)]
    rw [decodeBe32_u32be, Nat.mod_eq_of_lt hlen]
    rw [hLen, if_pos rfl]
    rw [drop4_pre _ _ (u32be_length data.length)]
    rw [take4_pre _ _ htyp]
    rw [drop_pre2 _ _ _ (u32be_length data.length) htyp]
    rw [List.take_left data (u32be (crc32_of (typ ++ data)))]
    rw [hdropc]
    rfl

/-- Counterexample to C4 as stated: for the `2^32`-byte payload,
`write_chunk` succeeds and emits a wrapped (zero) length field, and
re-parsing the produced bytes fails (`none`) instead of reproducing the
payload. -/
theorem write_chunk_roundtrip_cex :
    (write_chunk ⟨[], 0⟩ typIDAT (List.replicate (2^32) 0)).toOption.map Sink.data
      = some (u32be (2^32) ++ typIDAT ++ List.replicate (2^32) 0
          ++ u32be (crc32_of (typIDAT ++ List.replicate (2^32) 0)))
    ∧ parseChunk (u32be (2^32) ++ typIDAT ++ List.replicate (2^32) 0
        ++ u32be (crc32_of (typIDAT ++ List.replicate (2^32) 0))) = none := by
  constructor
  · rw [write_chunk_layout ⟨[], 0⟩ typIDAT (List.replicate (2^32) 0) rfl rfl]
    rw [List.length_replicate]
    rfl
  · have hL : (u32be (2^32) ++ (typIDAT ++ (List.replicate (2^32) (0 : Nat)
        ++ u32be (crc32_of (typIDAT ++ List.replicate (2^32) 0))))).length
          = 12 + 2^32 := by
      rw [List.length_append, List.length_append, List.length_append]
      rw [u32be_length, u32be_length, List.length_replicate]
      rw [show typIDAT.length = 4 from rfl]
      omega
    unfold parseChunk
    simp only [List.append_assoc]
    rw [take4_pre _ _ (u32be_length (2^32))]
    rw [hL]
    rw [if_neg (by rw [decodeBe32_u32be]; omega)]

/-- Witness for C4 at a concrete 3-byte payload. -/
theorem write_chunk_roundtrip_witness :
    write_chunk ⟨[], 0⟩ typIDAT [7, 8, 9]
      = .ok ⟨(Sink.mk [] 0).data ++ u32be ([7, 8, 9] : List Nat).length ++ typIDAT
          ++ [7, 8, 9] ++ u32be (crc32_of (typIDAT ++ [7, 8, 9])),
          (Sink.mk [] 0).data.length + 12 + ([7, 8, 9] : List Nat).length⟩
    ∧ parseChunk (u32be ([7, 8, 9] : List Nat).length ++ typIDAT ++ [7, 8, 9]
        ++ u32be (crc32_of (typIDAT ++ [7, 8, 9])))
      = some (typIDAT, [7, 8, 9], u32be (crc32_of (typIDAT ++ [7, 8, 9]))) :=
  write_chunk_roundtrip ⟨[], 0⟩ typIDAT [7, 8, 9] rfl rfl (by decide)

/-- C6: a `ZeroReader` configured for `N` bytes yields, across any sequence
of read calls with any buffer sizes, `min N (total requested)` bytes — so
exactly `N` once the requests total at least `N` — every one of them zero;
and once `N` bytes have been produced, every subsequent read returns no
bytes and leaves the reader unchanged. -/
theorem zeroReader_exhaustion (N : Nat) (bufLens : List Nat) :
    ((ZeroReader.new N).readMany bufLens).1.flatten
        = List.replicate (min N bufLens.sum) 0
    ∧ ((ZeroReader.new N).readMany bufLens).2 = ⟨N, min N bufLens.sum⟩
    ∧ (N ≤ bufLens.sum → ∀ k,
        (((ZeroReader.new N).readMany bufLens).2.read k).1 = []
        ∧ (((ZeroReader.new N).readMany bufLens).2.read k).2
            = ((ZeroReader.new N).readMany bufLens).2) := by
  have h := readMany_spec N bufLens 0 (Nat.zero_le N)
  have e : ZeroReader.new N = ⟨N, 0⟩ := rfl
  refine ⟨?_, ?_, ?_⟩
  · rw [e, h.1, Nat.zero_add, Nat.sub_zero]
  · rw [e, h.2, Nat.zero_add]
  · intro hN k
    have h2 : ((ZeroReader.new N).readMany bufLens).2 = ⟨N, N⟩ := by
      rw [e, h.2, Nat.zero_add, Nat.min_eq_left hN]
    have hz : zeroReadNum N N k = 0 := by
      cases k <;> simp [zeroReadNum]
    rw [h2]
    constructor
    · simp [ZeroReader.read, hz]
    · simp [ZeroReader.read, hz]

/-- Witness for C6 on a concrete reader. -/
theorem zeroReader_exhaustion_witness :
    ((ZeroReader.new 3).readMany [2, 2, 2]).1.flatten
        = List.replicate (min 3 ([2, 2, 2] : List Nat).sum) 0
    ∧ ((ZeroReader.new 3).readMany [2, 2, 2]).2 = ⟨3, min 3 ([2, 2, 2] : List Nat).sum⟩ :=
  ⟨(zeroReader_exhaustion 3 [2, 2, 2]).1, (zeroReader_exhaustion 3 [2, 2, 2]).2.1⟩

/-- C7: synthesizing a 2×2 image at 1-bit grayscale (color type 0) emits,
in order: the fixed 8-byte signature; a header chunk with length field 13
and payload `00 00 00 02 00 00 00 02 01 00 00 00 00`; an image-data chunk
whose payload is the compressed stream of the four raw bytes
`00 00 00 00` (one filter byte plus one packed row byte, twice) — so its
decompressed payload is exactly those four bytes; and a trailer chunk with
length field 0 and no payload; each chunk's checksum is the CRC32 of its
type ++ payload bytes. The compressor is any byte-stream transform with a
left inverse (the zlib boundary contract). -/
theorem render_2x2_end_to_end (compress decompress : List Nat → List Nat)
    (hinv : ∀ x, decompress (compress x) = x) :
    (render ⟨[], 0⟩ 2 2 1 0 compress).toOption.map Sink.data
      = some (pngSignature
          ++ (u32be 13 ++ typIHDR ++ [0, 0, 0, 2, 0, 0, 0, 2, 1, 0, 0, 0, 0]
              ++ u32be (crc32_of (typIHDR ++ [0, 0, 0, 2, 0, 0, 0, 2, 1, 0, 0, 0, 0])))
          ++ (u32be (compress [0, 0, 0, 0]).length ++ typIDAT ++ compress [0, 0, 0, 0]
              ++ u32be (crc32_of (typIDAT ++ compress [0, 0, 0, 0])))
          ++ (u32be 0 ++ typIEND ++ u32be (crc32_of (typIEND ++ []))))
    ∧ decompress (compress [0, 0, 0, 0]) = [0, 0, 0, 0] := by
  refine ⟨?_, hinv [0, 0, 0, 0]⟩
  unfold render
  dsimp only
  rw [show (Sink.mk [] 0).write pngSignature = ⟨pngSignature, 8⟩ from rfl]
  rw [show ihdrPayload 2 2 1 0 = [0, 0, 0, 2, 0, 0, 0, 2, 1, 0, 0, 0, 0] from rfl]
  rw [write_chunk_layout ⟨pngSignature, 8⟩ typIHDR
    [0, 0, 0, 2, 0, 0, 0, 2, 1, 0, 0, 0, 0] rfl rfl]
  dsimp only
  rw [show List.replicate (raw_row_length 2 1 * 2) (0 : Nat) = [0, 0, 0, 0] from rfl]
  rw [deferred_single_ok _ typIDAT (compress [0, 0, 0, 0]) (by rfl) rfl]
  dsimp only
  rw [write_chunk_layout _ typIEND []
    (by
      simp only [List.length_append, u32be_length,
        show typIHDR.length = 4 from rfl, show typIDAT.length = 4 from rfl,
        show pngSignature.length = 8 from rfl,
        show ([0, 0, 0, 2, 0, 0, 0, 2, 1, 0, 0, 0, 0] : List Nat).length = 13 from rfl]
      omega)
    rfl]
  dsimp only [Except.toOption, Option.map]
  simp only [List.append_assoc, List.append_nil, List.length_nil,
    show ([0, 0, 0, 2, 0, 0, 0, 2, 1, 0, 0, 0, 0] : List Nat).length = 13 from rfl]

/-- Witness for C7 with the identity transform standing in for the
compressor (its own left inverse). -/
theorem render_2x2_end_to_end_witness :
    (render ⟨[], 0⟩ 2 2 1 0 id).toOption.map Sink.data
      = some (pngSignature
          ++ (u32be 13 ++ typIHDR ++ [0, 0, 0, 2, 0, 0, 0, 2, 1, 0, 0, 0, 0]
              ++ u32be (crc32_of (typIHDR ++ [0, 0, 0, 2, 0, 0, 0, 2, 1, 0, 0, 0, 0])))
          ++ (u32be (id ([0, 0, 0, 0] : List Nat)).length ++ typIDAT
              ++ id ([0, 0, 0, 0] : List Nat)
              ++ u32be (crc32_of (typIDAT ++ id ([0, 0, 0, 0] : List Nat))))
          ++ (u32be 0 ++ typIEND ++ u32be (crc32_of (typIEND ++ []))))
    ∧ id ([0, 0, 0, 0] : List Nat) = [0, 0, 0, 0] :=
  render_2x2_end_to_end id id (fun _ => rfl)

/-- C8: an argument/configuration failure (docopt rejecting the external
input, including unparseable size parameters) surfaces from `run` before
the output file is even created — the file state in the error is `none`,
no chunk is ever opened, and no success outcome is possible. -/
theorem run_rejects_bad_args_before_io (e : Unit) (compress : List Nat → List Nat) :
    run (.error e) compress = .error (.docopt, none)
    ∧ ∀ s, run (.error e) compress ≠ .ok s := by
  constructor
  · rfl
  · intro s hs
    rw [show run (Except.error e) compress = .error (.docopt, none) from rfl] at hs
    exact Except.noConfusion hs

/-- Witness for C8 at a concrete parse failure. -/
theorem run_rejects_bad_args_before_io_witness :
    run (.error ()) id = .error (.docopt, none) :=
  (run_rejects_bad_args_before_io () id).1

/-- A capacity-free generalized sink accepts every write in full. -/
theorem GSink.write_full (s : GSink) (bytes : List Nat) (hc : s.caps = [])
    (h : s.pos = s.data.length) :
    s.write bytes = (bytes.length, ⟨s.data ++ bytes, s.pos + bytes.length, []⟩) := by
  simp [GSink.write, GSink.accepts, hc, h, List.drop_eq_nil_of_le]

/-- Folding `write` calls over a capacity-free generalized writer appends
the payloads and folds them into the digest, as for the plain sink. -/
theorem gwrites_full (cw : GChunkWriter) (ps : List (List Nat))
    (hc : cw.w.caps = []) (h : cw.w.pos = cw.w.data.length) :
    cw.writes ps =
      { cw with w := ⟨cw.w.data ++ ps.flatten, cw.w.pos + ps.flatten.length, []⟩,
                crc := crc_update cw.crc ps.flatten } := by
  induction ps generalizing cw with
  | nil =>
    obtain ⟨⟨d, p, c⟩, l, cr, st⟩ := cw
    simp_all [GChunkWriter.writes]
  | cons q qs ih =>
    have hw := GSink.write_full cw.w q hc h
    have hstep : (cw.write q).2 =
        { cw with w := ⟨cw.w.data ++ q, cw.w.pos + q.length, []⟩,
                  crc := crc_update cw.crc q } := by
      simp [GChunkWriter.write, hw]
    have := ih (cw.write q).2 (by rw [hstep]) (by rw [hstep]; simp [h])
    simp only [GChunkWriter.writes, List.foldl_cons] at this ⊢
    rw [this, hstep]
    simp only [GChunkWriter.mk.injEq, GSink.mk.injEq, List.flatten_cons,
      ← crc_update_append, List.append_assoc, List.length_append]
    refine ⟨⟨trivial, by omega, trivial⟩, trivial, trivial, trivial⟩

/-- `begin` on a generalized sink at end-of-data appends the header. -/
theorem gbegin_spec (w0 : GSink) (typ : List Nat) (len : Option Nat)
    (h : w0.pos = w0.data.length) :
    GChunkWriter.begin w0 typ len =
      { w := ⟨w0.data ++ (u32be (len.getD 0) ++ typ),
              w0.pos + (u32be (len.getD 0) ++ typ).length, w0.caps⟩,
        len := len, crc := crc_update 0 typ, start := w0.pos } := by
  simp [GChunkWriter.begin, h, List.drop_eq_nil_of_le]

set_option maxRecDepth 40000 in
/-- C9: the `Write` implementation folds the entire supplied buffer into
the checksum accumulator while returning only the byte count the inner
sink accepted, so under a short write the accumulator covers bytes that
never reached the sink (concrete divergence in the middle conjunct); only
when every inner write accepts its buffer in full does the accumulator
cover exactly the sink's type ++ payload bytes. -/
theorem short_write_checksum_divergence :
    (∀ (cw : GChunkWriter) (data : List Nat),
        (cw.write data).2.crc = crc_update cw.crc data
        ∧ (cw.write data).1 = cw.w.accepts data
        ∧ (cw.write data).2.w = (cw.w.write data).2)
    ∧ ((GChunkWriter.begin ⟨[], 0, [1]⟩ typIDAT none).write [1, 2]).1 = 1
    ∧ ((GChunkWriter.begin ⟨[], 0, [1]⟩ typIDAT none).write [1, 2]).2.crc
        = crc32_of (typIDAT ++ [1, 2])
    ∧ ((GChunkWriter.begin ⟨[], 0, [1]⟩ typIDAT none).write [1, 2]).2.w.data
        = u32be 0 ++ typIDAT ++ [1]
    ∧ crc32_of (typIDAT ++ [1]) ≠ crc32_of (typIDAT ++ [1, 2])
    ∧ (∀ (w0 : GSink) (typ : List Nat) (ps : List (List Nat)),
        w0.caps = [] → w0.pos = w0.data.length →
        ((GChunkWriter.begin w0 typ none).writes ps).crc = crc32_of (typ ++ ps.flatten)
        ∧ ((GChunkWriter.begin w0 typ none).writes ps).w.data
            = w0.data ++ (u32be 0 ++ (typ ++ ps.flatten))) := by
  refine ⟨fun cw data => ⟨rfl, rfl, rfl⟩, rfl, rfl, rfl, by decide,
    fun w0 typ ps hc h => ?_⟩
  rw [gbegin_spec w0 typ none h]
  rw [gwrites_full _ ps (by exact hc) (by simp [h])]
  constructor
  · exact (crc_update_append 0 typ ps.flatten).symm
  · simp [List.append_assoc]

/-- C10: every length field is written as the payload length reduced
modulo `2^32`: decoding the four emitted bytes of `u32be` recovers exactly
`n % 2^32`; `begin` writes `u32be` of the declared length (concretely,
declaring `2^32 + 5` emits the field `00 00 00 05`); Deferred-mode
`finish` writes `u32be` of the cursor-derived length, so a `2^32`-byte
payload finishes without error with a field decoding to `0`; and the
header payload carries width and height through the same `u32` cast. -/
theorem length_fields_truncated_mod_2_32 :
    (∀ n, decodeBe32 (u32be n) = n % 2^32)
    ∧ (∀ (w0 : Sink) (typ : List Nat) (n : Nat), w0.pos = w0.data.length →
        (ChunkWriter.begin w0 typ (some n)).w.data = w0.data ++ u32be n ++ typ)
    ∧ (ChunkWriter.begin ⟨[], 0⟩ typIDAT (some (2^32 + 5))).w.data
        = [0, 0, 0, 5] ++ typIDAT
    ∧ ((ChunkWriter.writes (ChunkWriter.begin ⟨[], 0⟩ typIDAT none)
          [List.replicate (2^32) 0]).finish
        = .ok ⟨u32be (2^32) ++ typIDAT ++ List.replicate (2^32) 0
            ++ u32be (crc32_of (typIDAT ++ List.replicate (2^32) 0)), 12 + 2^32⟩
        ∧ decodeBe32 (u32be (2^32)) = 0)
    ∧ (∀ width height bitDepth colorType : Nat,
        ihdrPayload width height bitDepth colorType
          = u32be width ++ u32be height ++ [bitDepth % 256, colorType % 256, 0, 0, 0]) := by
  refine ⟨decodeBe32_u32be, ?_, rfl, ⟨deferred_replicate_ok (2^32), rfl⟩,
    fun w h b c => rfl⟩
  intro w0 typ n h
  rw [begin_spec w0 typ (some n) h]
  rfl

/-- Witness for C10's quantified parts at concrete values. -/
theorem length_fields_truncated_mod_2_32_witness :
    decodeBe32 (u32be (2^32 + 7)) = (2^32 + 7) % 2^32
    ∧ (ChunkWriter.begin ⟨[], 0⟩ typIEND (some 5)).w.data = [] ++ u32be 5 ++ typIEND := by
  constructor
  · exact (length_fields_truncated_mod_2_32).1 (2^32 + 7)
  · exact (length_fields_truncated_mod_2_32).2.1 ⟨[], 0⟩ typIEND 5 rfl

end Pngbomb
